import Mathlib

/-!
Verification of the raflow dictation agent core (src/w3/raflow/src-tauri).

Shallow embedding conventions:
* Rust `f32`/`f64` arithmetic is modelled over `ℚ` (exact real-valued
  semantics); non-finite `f32` values are modelled by an explicit sum type
  where the code branches on finiteness.
* Rust `i16`/`u16` samples are modelled as `ℤ`/`ℕ` with explicit range
  hypotheses where the source type implies them.
* Rust `String` values are modelled as `List Char` (Rust `char` and Lean
  `Char` are both Unicode scalar values); `.chars()` iteration, `trim`,
  `strip_prefix` and char-index slicing translate to list operations.
* Stateful code (tracker, committed queue) becomes explicit state passing.
-/

namespace Raflow

/-! ### Rust primitives: char classification and string helpers -/

/-- Rust `char::is_whitespace`: the Unicode `White_Space` property. -/
def rustIsWhitespace (c : Char) : Bool :=
  let n := c.toNat
  (0x09 ≤ n && n ≤ 0x0D) || n == 0x20 || n == 0x85 || n == 0xA0 ||
  n == 0x1680 || (0x2000 ≤ n && n ≤ 0x200A) || n == 0x2028 || n == 0x2029 ||
  n == 0x202F || n == 0x205F || n == 0x3000

/-- Rust `char::is_control`: the Unicode `Cc` category. -/
def rustIsControl (c : Char) : Bool :=
  let n := c.toNat
  n ≤ 0x1F || (0x7F ≤ n && n ≤ 0x9F)

/-- Rust `str::trim_start` on a char list. -/
def rust_trim_start (l : List Char) : List Char :=
  l.dropWhile rustIsWhitespace

/-- Rust `str::trim_end` on a char list. -/
def rust_trim_end (l : List Char) : List Char :=
  (l.reverse.dropWhile rustIsWhitespace).reverse

/-- Rust `str::trim` on a char list. -/
def rust_trim (l : List Char) : List Char :=
  rust_trim_end (rust_trim_start l)

/-- Rust `str::contains(pat)` for a literal pattern: substring search. -/
def strContains : List Char → List Char → Bool
  | [], pat => pat.isEmpty
  | text@(_ :: rest), pat => pat.isPrefixOf text || strContains rest pat

/-! ### Audio numeric conversions (src/audio/resampler.rs, src/audio/capturer.rs) -/

/-- Truncation toward zero, the rounding performed by a Rust `as` cast from a
float to an integer type (before saturation). -/
def truncTowardZero (q : ℚ) : ℤ :=
  if 0 ≤ q then ⌊q⌋ else ⌈q⌉

/-- The saturation step of Rust `as i16` on a float value. -/
def saturateToI16 (n : ℤ) : ℤ :=
  max (-32768) (min 32767 n)

/-- Rust `f32::clamp(lo, hi)` under exact arithmetic. -/
def rustClamp (x lo hi : ℚ) : ℚ :=
  min (max x lo) hi

/-- `convert_f32_to_i16` (src/audio/resampler.rs lines 101-103):
`(sample.clamp(-1.0, 1.0) * i16::MAX as f32) as i16`. -/
def convert_f32_to_i16 (sample : ℚ) : ℤ :=
  saturateToI16 (truncTowardZero (rustClamp sample (-1) 1 * 32767))

/-- The conversion the SPEC's words describe for claim C3:
`i16::round(clip(x) * 32767)`, i.e. round to nearest integer with ties away
from zero (the semantics of Rust `f32::round`). -/
def spec_round_clamp (x : ℚ) : ℤ :=
  if 0 ≤ rustClamp x (-1) 1 * 32767 then ⌊rustClamp x (-1) 1 * 32767 + 1/2⌋
  else ⌈rustClamp x (-1) 1 * 32767 - 1/2⌉

/-- Ring-buffer capacity from `AudioCapturer::new` (src/audio/capturer.rs
lines 77-78): `((input_sample_rate / buffer_size) * 2).max(64)` in `usize`
arithmetic. -/
def ring_capacity (input_sample_rate buffer_size : Nat) : Nat :=
  max ((input_sample_rate / buffer_size) * 2) 64

/-! ### Helper lemmas for truncation -/

theorem truncTowardZero_eq_of (q : ℚ) (n : ℤ)
    (h : (0 ≤ q ∧ (n : ℚ) ≤ q ∧ q < n + 1) ∨ (q < 0 ∧ (n : ℚ) - 1 < q ∧ q ≤ n)) :
    truncTowardZero q = n := by
  unfold truncTowardZero
  rcases h with ⟨h0, h1, h2⟩ | ⟨h0, h1, h2⟩
  · rw [if_pos h0, Int.floor_eq_iff]
    exact ⟨h1, h2⟩
  · rw [if_neg (not_le.mpr h0), Int.ceil_eq_iff]
    exact ⟨h1, h2⟩

theorem truncTowardZero_close (q : ℚ) : |(truncTowardZero q : ℚ) - q| < 1 := by
  unfold truncTowardZero
  split
  · have h1 := Int.floor_le q
    have h2 := Int.lt_floor_add_one q
    rw [abs_lt]
    constructor <;> linarith
  · have h1 := Int.le_ceil q
    have h2 := Int.ceil_lt_add_one q
    rw [abs_lt]
    constructor <;> linarith

theorem convert_f32_to_i16_eq_of (x : ℚ) (n : ℤ) (hn1 : -32768 ≤ n) (hn2 : n ≤ 32767)
    (h : (0 ≤ rustClamp x (-1) 1 * 32767 ∧ (n : ℚ) ≤ rustClamp x (-1) 1 * 32767 ∧
            rustClamp x (-1) 1 * 32767 < n + 1)
       ∨ (rustClamp x (-1) 1 * 32767 < 0 ∧ (n : ℚ) - 1 < rustClamp x (-1) 1 * 32767 ∧
            rustClamp x (-1) 1 * 32767 ≤ n)) :
    convert_f32_to_i16 x = n := by
  unfold convert_f32_to_i16 saturateToI16
  rw [truncTowardZero_eq_of _ n h]
  omega

/-! ### Claims C3, C8, C7 -/

/-- C3 (amended): `convert_f32_to_i16 x` is the value of `x` clipped to
`[-1, 1]`, scaled by 32767, and truncated toward zero (NOT rounded to the
nearest integer).  The truncated value is within one unit of the exact
scaled value and always lies in `[-32767, 32767]`, so the saturation of the
`as i16` cast never engages. -/
theorem claim_C3 (x : ℚ) :
    convert_f32_to_i16 x = truncTowardZero (rustClamp x (-1) 1 * 32767)
    ∧ |(convert_f32_to_i16 x : ℚ) - rustClamp x (-1) 1 * 32767| < 1
    ∧ -32767 ≤ convert_f32_to_i16 x ∧ convert_f32_to_i16 x ≤ 32767 := by
  have hcl1 : -1 ≤ rustClamp x (-1) 1 := le_min (le_max_right _ _) (by norm_num)
  have hcl2 : rustClamp x (-1) 1 ≤ 1 := min_le_right _ _
  set q : ℚ := rustClamp x (-1) 1 * 32767 with hq
  have hql : -32767 ≤ q := by rw [hq]; nlinarith
  have hqu : q ≤ 32767 := by rw [hq]; nlinarith
  have htl : -32767 ≤ truncTowardZero q := by
    unfold truncTowardZero
    split
    · have : (0 : ℤ) ≤ ⌊q⌋ := Int.floor_nonneg.mpr (by assumption)
      omega
    · have h1 := Int.le_ceil q
      have : (-32767 : ℚ) ≤ (⌈q⌉ : ℚ) := le_trans hql h1
      exact_mod_cast this
  have htu : truncTowardZero q ≤ 32767 := by
    unfold truncTowardZero
    split
    · have h1 := Int.floor_le q
      have : (⌊q⌋ : ℚ) ≤ 32767 := le_trans h1 hqu
      exact_mod_cast this
    · have hneg : q < 0 := not_le.mp (by assumption)
      have : ⌈q⌉ ≤ 0 := Int.ceil_le.mpr (by exact_mod_cast le_of_lt hneg)
      omega
  have hsat : convert_f32_to_i16 x = truncTowardZero q := by
    unfold convert_f32_to_i16 saturateToI16
    rw [← hq]
    omega
  refine ⟨hsat, ?_, ?_, ?_⟩
  · rw [hsat]; exact truncTowardZero_close q
  · rw [hsat]; exact htl
  · rw [hsat]; exact htu

/-- C3 counterexample: at `x = 0.5` the code truncates `16383.5` down to
`16383` (its own unit test expects this), while the spec's
`round(clamp(x, -1, 1) * 32767)` gives `16384`. -/
theorem claim_C3_cex :
    convert_f32_to_i16 (1/2) = 16383 ∧ spec_round_clamp (1/2) = 16384 ∧
    convert_f32_to_i16 (1/2) ≠ spec_round_clamp (1/2) := by
  have h1 : convert_f32_to_i16 (1/2) = 16383 := by
    apply convert_f32_to_i16_eq_of <;> norm_num [rustClamp, min_def, max_def]
  have h2 : spec_round_clamp (1/2) = 16384 := by
    unfold spec_round_clamp rustClamp
    norm_num [min_def, max_def]
  exact ⟨h1, h2, by omega⟩

/-- C8: `convert_f32_to_i16` maps the five scenario inputs
`0.0, 0.5, -0.5, 1.2, -1.3` to `0, 16383, -16383, 32767, -32767`. -/
theorem claim_C8 :
    convert_f32_to_i16 0 = 0 ∧ convert_f32_to_i16 (1/2) = 16383 ∧
    convert_f32_to_i16 (-(1/2)) = -16383 ∧ convert_f32_to_i16 (6/5) = 32767 ∧
    convert_f32_to_i16 (-(13/10)) = -32767 := by
  refine ⟨?_, ?_, ?_, ?_, ?_⟩ <;>
    (apply convert_f32_to_i16_eq_of <;> norm_num [rustClamp, min_def, max_def])

theorem two_mul_div_aux (bs q r : ℕ) (hbs : 0 < bs) (hr : r < bs) :
    2 * (bs * q + r) / bs = 2 * q + (if bs ≤ 2 * r then 1 else 0) := by
  have h1 : 2 * (bs * q + r) = 2 * r + bs * (2 * q) := by ring
  rw [h1, Nat.add_mul_div_left _ _ hbs]
  have h2 : 2 * r / bs = if bs ≤ 2 * r then 1 else 0 := by
    rcases le_or_lt bs (2 * r) with h | h
    · rw [if_pos h]
      exact Nat.div_eq_of_lt_le (by omega) (by omega)
    · rw [if_neg (not_le.mpr h)]
      exact Nat.div_eq_of_lt h
  rw [h2, Nat.add_comm]

/-- C7 (amended): the ring buffer capacity is
`max 64 (2 * (input_rate / buffer_size))` where the integer division is
applied BEFORE the doubling.  Writing the spec's formula
`2 * input_rate / buffer_size` as exact left-to-right integer arithmetic
adds one extra unit exactly when `buffer_size ≤ 2 * (input_rate % buffer_size)`,
so the two formulas agree exactly when `2 * (input_rate % buffer_size) <
buffer_size`. -/
theorem claim_C7 (rate bs : Nat) (hbs : 0 < bs) :
    ring_capacity rate bs = max 64 (2 * (rate / bs))
    ∧ 2 * rate / bs = 2 * (rate / bs) + (if bs ≤ 2 * (rate % bs) then 1 else 0)
    ∧ (2 * (rate % bs) < bs → ring_capacity rate bs = max 64 (2 * rate / bs)) := by
  have key : 2 * rate / bs = 2 * (rate / bs) + (if bs ≤ 2 * (rate % bs) then 1 else 0) := by
    have := two_mul_div_aux bs (rate / bs) (rate % bs) hbs (Nat.mod_lt _ hbs)
    rwa [Nat.div_add_mod] at this
  have base : ring_capacity rate bs = max 64 (2 * (rate / bs)) := by
    unfold ring_capacity
    rw [Nat.max_comm, Nat.mul_comm]
  refine ⟨base, key, fun h => ?_⟩
  rw [base, key, if_neg (not_le.mpr h), Nat.add_zero]

/-- C7 counterexample: with device rate 48240 and buffer size 480, the code
computes `(48240 / 480) * 2 = 200`, while the claim's
`max(64, 2 * 48240 / 480) = 201`. -/
theorem claim_C7_cex :
    ring_capacity 48240 480 = 200 ∧ max 64 (2 * 48240 / 480) = 201 ∧
    ring_capacity 48240 480 ≠ max 64 (2 * 48240 / 480) := by
  refine ⟨?_, ?_, ?_⟩ <;> decide

/-- Witness for `claim_C3` at the concrete input `x = 2` (clipped to 1,
scaled to 32767, truncation exact). -/
theorem claim_C3_wit :
    convert_f32_to_i16 2 = truncTowardZero (rustClamp 2 (-1) 1 * 32767)
    ∧ |(convert_f32_to_i16 2 : ℚ) - rustClamp 2 (-1) 1 * 32767| < 1
    ∧ -32767 ≤ convert_f32_to_i16 2 ∧ convert_f32_to_i16 2 ≤ 32767 :=
  claim_C3 2

/-- Witness for `claim_C7` at `rate = 48000`, `bs = 480`. -/
theorem claim_C7_wit :
    ring_capacity 48000 480 = max 64 (2 * (48000 / 480))
    ∧ 2 * 48000 / 480 = 2 * (48000 / 480) + (if 480 ≤ 2 * (48000 % 480) then 1 else 0)
    ∧ (2 * (48000 % 480) < 480 → ring_capacity 48000 480 = max 64 (2 * 48000 / 480)) :=
  claim_C7 48000 480 (by decide)


/-! ### Format adapter (src/audio/capturer.rs lines 238-287)

Each source function walks `data.chunks_exact(input_channels)`; frame `k`
of that iterator is `data[k*channels .. k*channels+channels]` and the
iterator yields exactly `data.len() / channels` complete frames, so the
loop is embedded as a map over `List.range (data.length / channels)`. -/

/-- `interleaved_f32_to_mono` (capturer.rs lines 238-249). -/
def interleaved_f32_to_mono (data : List ℚ) (input_channels : Nat) : List ℚ :=
  if input_channels ≤ 1 then data
  else (List.range (data.length / input_channels)).map
    (fun k => ((data.drop (k * input_channels)).take input_channels).sum / input_channels)

/-- `interleaved_i16_to_mono` (capturer.rs lines 251-268): each sample is
normalized as `s as f32 / i16::MAX as f32`. -/
def interleaved_i16_to_mono (data : List ℤ) (input_channels : Nat) : List ℚ :=
  if input_channels ≤ 1 then data.map (fun s : ℤ => (s : ℚ) / 32767)
  else (List.range (data.length / input_channels)).map
    (fun k => (((data.drop (k * input_channels)).take input_channels).map
      (fun s : ℤ => (s : ℚ) / 32767)).sum / input_channels)

/-- `interleaved_u16_to_mono` (capturer.rs lines 270-287): each sample is
normalized as `(s as f32 / u16::MAX as f32) * 2.0 - 1.0`. -/
def interleaved_u16_to_mono (data : List ℕ) (input_channels : Nat) : List ℚ :=
  if input_channels ≤ 1 then data.map (fun s : ℕ => (s : ℚ) / 65535 * 2 - 1)
  else (List.range (data.length / input_channels)).map
    (fun k => (((data.drop (k * input_channels)).take input_channels).map
      (fun s : ℕ => (s : ℚ) / 65535 * 2 - 1)).sum / input_channels)

theorem frame_length {α : Type} (data : List α) (n k : Nat) (hn : 0 < n)
    (hk : k < data.length / n) : ((data.drop (k * n)).take n).length = n := by
  have h : (k + 1) * n ≤ data.length := (Nat.le_div_iff_mul_le hn).mp hk
  rw [Nat.succ_mul] at h
  simp only [List.length_take, List.length_drop]
  omega

theorem sum_div_bounds (l : List ℚ) (n : Nat) (lo hi : ℚ) (hlen : l.length = n)
    (hn : 0 < n) (h : ∀ x ∈ l, lo ≤ x ∧ x ≤ hi) :
    lo ≤ l.sum / n ∧ l.sum / n ≤ hi := by
  have hsum_le : l.sum ≤ (n : ℚ) * hi := by
    calc l.sum ≤ l.length • hi := List.sum_le_card_nsmul l hi (fun x hx => (h x hx).2)
    _ = (n : ℚ) * hi := by rw [hlen]; simp [nsmul_eq_mul]
  have hsum_ge : (n : ℚ) * lo ≤ l.sum := by
    calc (n : ℚ) * lo = l.length • lo := by rw [hlen]; simp [nsmul_eq_mul]
    _ ≤ l.sum := List.card_nsmul_le_sum l lo (fun x hx => (h x hx).1)
  have hn' : (0 : ℚ) < n := by exact_mod_cast hn
  constructor
  · rw [le_div_iff₀ hn']
    linarith
  · rw [div_le_iff₀ hn']
    linarith

theorem i16_norm_bounds (s : ℤ) (h1 : -32768 ≤ s) (h2 : s ≤ 32767) :
    -(32768/32767 : ℚ) ≤ (s : ℚ) / 32767 ∧ (s : ℚ) / 32767 ≤ 1 := by
  have hs1 : (-32768 : ℚ) ≤ (s : ℚ) := by exact_mod_cast h1
  have hs2 : (s : ℚ) ≤ 32767 := by exact_mod_cast h2
  constructor
  · rw [le_div_iff₀ (by norm_num : (0:ℚ) < 32767)]
    have h3 : -(32768/32767 : ℚ) * 32767 = -32768 := by norm_num
    linarith
  · rw [div_le_one (by norm_num : (0:ℚ) < 32767)]
    exact hs2

theorem u16_norm_bounds (s : ℕ) (h2 : s ≤ 65535) :
    -1 ≤ (s : ℚ) / 65535 * 2 - 1 ∧ (s : ℚ) / 65535 * 2 - 1 ≤ 1 := by
  have hs1 : (0 : ℚ) ≤ (s : ℚ) := by positivity
  have hs2 : (s : ℚ) ≤ 65535 := by exact_mod_cast h2
  have ht1 : (0 : ℚ) ≤ (s : ℚ) / 65535 := by positivity
  have ht2 : (s : ℚ) / 65535 ≤ 1 := by
    rw [div_le_one (by norm_num : (0:ℚ) < 65535)]
    exact hs2
  constructor <;> linarith


theorem mono_frame_bound {α : Type} (data : List α) (n : Nat) (hn : 1 < n)
    (f : α → ℚ) (lo hi : ℚ) (hf : ∀ s ∈ data, lo ≤ f s ∧ f s ≤ hi) (y : ℚ)
    (hy : y ∈ (List.range (data.length / n)).map
      (fun k => (((data.drop (k * n)).take n).map f).sum / n)) :
    lo ≤ y ∧ y ≤ hi := by
  obtain ⟨k, hk, rfl⟩ := List.mem_map.mp hy
  have hkr : k < data.length / n := List.mem_range.mp hk
  apply sum_div_bounds _ n lo hi ?_ (by omega)
  · intro x hx
    obtain ⟨s, hs, rfl⟩ := List.mem_map.mp hx
    exact hf s (List.mem_of_mem_drop (List.mem_of_mem_take hs))
  · rw [List.length_map]
    exact frame_length data n k (by omega) hkr

/-- C2 (amended): for every multi-channel input (channels > 1) to each of the
three conversion functions, the output length is `input_len / channels`
(truncating division: a trailing incomplete frame is discarded), so
`mono_len * channels == input_len` holds exactly when `channels` divides
`input_len`.  Output samples of the u16 variant always lie in `[-1, 1]`;
those of the i16 variant lie in `[-32768/32767, 1]` (an input of
`i16::MIN` normalizes slightly below -1); those of the f32 variant lie in
`[-1, 1]` only when every input sample does (the function does not clamp). -/
theorem claim_C2 (n : Nat) (hn : 1 < n) :
    (∀ data : List ℚ, (interleaved_f32_to_mono data n).length = data.length / n)
    ∧ (∀ data : List ℤ, (interleaved_i16_to_mono data n).length = data.length / n)
    ∧ (∀ data : List ℕ, (interleaved_u16_to_mono data n).length = data.length / n)
    ∧ (∀ data : List ℚ, n ∣ data.length →
        (interleaved_f32_to_mono data n).length * n = data.length)
    ∧ (∀ data : List ℚ, (∀ x ∈ data, -1 ≤ x ∧ x ≤ 1) →
        ∀ y ∈ interleaved_f32_to_mono data n, -1 ≤ y ∧ y ≤ 1)
    ∧ (∀ data : List ℤ, (∀ s ∈ data, -32768 ≤ s ∧ s ≤ 32767) →
        ∀ y ∈ interleaved_i16_to_mono data n, -(32768/32767) ≤ y ∧ y ≤ 1)
    ∧ (∀ data : List ℕ, (∀ s ∈ data, s ≤ 65535) →
        ∀ y ∈ interleaved_u16_to_mono data n, -1 ≤ y ∧ y ≤ 1) := by
  have hne : ¬ n ≤ 1 := by omega
  have hlen_f32 : ∀ data : List ℚ, (interleaved_f32_to_mono data n).length = data.length / n := by
    intro data
    unfold interleaved_f32_to_mono
    rw [if_neg hne, List.length_map, List.length_range]
  refine ⟨hlen_f32, ?_, ?_, ?_, ?_, ?_, ?_⟩
  · intro data
    unfold interleaved_i16_to_mono
    rw [if_neg hne, List.length_map, List.length_range]
  · intro data
    unfold interleaved_u16_to_mono
    rw [if_neg hne, List.length_map, List.length_range]
  · intro data hdvd
    rw [hlen_f32 data]
    exact Nat.div_mul_cancel hdvd
  · intro data hdata y hy
    unfold interleaved_f32_to_mono at hy
    rw [if_neg hne] at hy
    obtain ⟨k, hk, rfl⟩ := List.mem_map.mp hy
    have hkr : k < data.length / n := List.mem_range.mp hk
    apply sum_div_bounds _ n (-1) 1 ?_ (by omega)
    · intro x hx
      exact hdata x (List.mem_of_mem_drop (List.mem_of_mem_take hx))
    · exact frame_length data n k (by omega) hkr
  · intro data hdata y hy
    unfold interleaved_i16_to_mono at hy
    rw [if_neg hne] at hy
    apply mono_frame_bound data n hn _ _ _ _ y hy
    intro s hs
    exact i16_norm_bounds s (hdata s hs).1 (hdata s hs).2
  · intro data hdata y hy
    unfold interleaved_u16_to_mono at hy
    rw [if_neg hne] at hy
    apply mono_frame_bound data n hn _ _ _ _ y hy
    intro s hs
    exact u16_norm_bounds s (hdata s hs)

/-- C2 counterexample: with 2 channels, the f32 adapter on the 3-sample
input `[2, 2, 2]` yields one frame `[2]`, so `mono_len * channels = 2 ≠ 3`
and the output sample `2` is outside `[-1, 1]`; and the i16 adapter maps a
frame of two `i16::MIN` samples to `-32768/32767 < -1`. -/
theorem claim_C2_cex :
    interleaved_f32_to_mono [2, 2, 2] 2 = [2]
    ∧ (interleaved_f32_to_mono [2, 2, 2] 2).length * 2 ≠ 3
    ∧ ¬((2 : ℚ) ≤ 1)
    ∧ interleaved_i16_to_mono [-32768, -32768] 2 = [-(32768/32767)]
    ∧ -(32768/32767 : ℚ) < -1 := by
  refine ⟨?_, ?_, by norm_num, ?_, by norm_num⟩
  · unfold interleaved_f32_to_mono
    norm_num [List.range_succ]
  · unfold interleaved_f32_to_mono
    norm_num [List.range_succ]
  · unfold interleaved_i16_to_mono
    norm_num [List.range_succ]

/-- Witness for `claim_C2` at channels = 2 with concrete inputs. -/
theorem claim_C2_wit :
    (interleaved_f32_to_mono [0, 0, 0, 0] 2).length = 2
    ∧ (interleaved_u16_to_mono [0, 65535] 2).length = 1 :=
  ⟨(claim_C2 2 (by norm_num)).1 [0, 0, 0, 0],
   (claim_C2 2 (by norm_num)).2.2.1 [0, 65535]⟩

/-! ### Committed-transcript gates (src/lib.rs lines 300-326, 834-843) -/

/-- Model of an `f32` value as seen by the gate logic: a finite value is an
exact rational, non-finite values are explicit classes.  IEEE comparisons
involving NaN are false. -/
inductive F32 where
  | nan : F32
  | posInf : F32
  | negInf : F32
  | finite (q : ℚ) : F32
deriving DecidableEq

def F32.isFinite : F32 → Bool
  | .finite _ => true
  | _ => false

/-- IEEE evaluation of `confidence <= 0.0`. -/
def F32.leZero : F32 → Bool
  | .nan => false
  | .posInf => false
  | .negInf => true
  | .finite q => decide (q ≤ 0)

/-- IEEE evaluation of `confidence < MIN_COMMITTED_CONFIDENCE` where
`MIN_COMMITTED_CONFIDENCE = 0.10f32`.  The rational threshold `1/10`
classifies every representable f32 exactly as the f32 constant does: the
f32 nearest 0.1 is slightly above `1/10` and no f32 value lies between. -/
def F32.ltMinConfidence : F32 → Bool
  | .nan => false
  | .posInf => false
  | .negInf => true
  | .finite q => decide (q < 1/10)

/-- `should_drop_low_confidence_committed` (lib.rs lines 834-843):
`confidence <= 0.0` is accepted as "not provided", otherwise drop when
below the minimum. -/
def should_drop_low_confidence_committed (confidence : F32) : Bool :=
  if confidence.leZero then false else confidence.ltMinConfidence

inductive CommitGateResult where
  | dropStale | dropNonFinite | dropLowConfidence | accept
deriving DecidableEq

/-- The early-return gates of the `CommittedTranscript` arm of
`handle_scribe_event` (lib.rs lines 300-326), in source order; `Nat`
subtraction models `u64::saturating_sub`.  Any result other than `accept`
returns from the handler before anything is normalized or enqueued. -/
def commit_gate (now_ms last_voice_activity_ms : Nat) (confidence : F32) :
    CommitGateResult :=
  if last_voice_activity_ms = 0 ∨ 6000 < now_ms - last_voice_activity_ms then
    .dropStale
  else if !confidence.isFinite then .dropNonFinite
  else if should_drop_low_confidence_committed confidence then .dropLowConfidence
  else .accept

/-- C4: a committed event is dropped when voice activity is missing or more
than 6000 ms old (checked first, regardless of confidence), otherwise when
the confidence is non-finite, otherwise when `0 < confidence < 0.10`; a
confidence of exactly `0.0` never causes a drop by itself (with fresh voice
activity it is accepted). -/
theorem claim_C4 :
    (∀ (now last : Nat) (c : F32), (last = 0 ∨ 6000 < now - last) →
      commit_gate now last c = .dropStale)
    ∧ (∀ (now last : Nat) (c : F32), ¬(last = 0 ∨ 6000 < now - last) →
        c.isFinite = false → commit_gate now last c = .dropNonFinite)
    ∧ (∀ (now last : Nat) (q : ℚ), ¬(last = 0 ∨ 6000 < now - last) →
        0 < q → q < 1/10 →
        commit_gate now last (F32.finite q) = .dropLowConfidence)
    ∧ (∀ (now last : Nat), commit_gate now last (F32.finite 0) = .dropStale ∨
        commit_gate now last (F32.finite 0) = .accept) := by
  refine ⟨?_, ?_, ?_, ?_⟩
  · intro now last c h
    unfold commit_gate
    rw [if_pos h]
  · intro now last c h hfin
    unfold commit_gate
    rw [if_neg h, hfin]
    simp
  · intro now last q h h0 hlt
    have h2 : (F32.finite q).leZero = false := by
      simp only [F32.leZero, decide_eq_false_iff_not]
      exact not_le.mpr h0
    have h3 : (F32.finite q).ltMinConfidence = true := by
      simp only [F32.ltMinConfidence]
      exact decide_eq_true hlt
    have hdrop : should_drop_low_confidence_committed (F32.finite q) = true := by
      unfold should_drop_low_confidence_committed
      rw [h2, h3]
      simp
    unfold commit_gate
    rw [if_neg h]
    simp [F32.isFinite, hdrop]
  · intro now last
    by_cases h : last = 0 ∨ 6000 < now - last
    · left
      unfold commit_gate
      rw [if_pos h]
    · right
      unfold commit_gate
      rw [if_neg h]
      have hdrop : should_drop_low_confidence_committed (F32.finite 0) = false := by
        unfold should_drop_low_confidence_committed F32.leZero
        simp
      rw [hdrop]
      simp [F32.isFinite]

/-- Witness for `claim_C4` at concrete inputs: a stale commit 9000 ms after
voice activity, a NaN confidence, a 0.05 confidence and an exact 0.0. -/
theorem claim_C4_wit :
    commit_gate 10000 1000 (F32.finite (1/2)) = .dropStale
    ∧ commit_gate 2000 1000 F32.nan = .dropNonFinite
    ∧ commit_gate 2000 1000 (F32.finite (1/20)) = .dropLowConfidence
    ∧ (commit_gate 2000 1000 (F32.finite 0) = .dropStale ∨
        commit_gate 2000 1000 (F32.finite 0) = .accept) :=
  ⟨claim_C4.1 10000 1000 _ (by omega),
   claim_C4.2.1 2000 1000 F32.nan (by omega) rfl,
   claim_C4.2.2.1 2000 1000 (1/20) (by omega) (by norm_num) (by norm_num),
   claim_C4.2.2.2 2000 1000⟩

/-! ### Voice activity and silence detection (src/commands.rs lines 676-732) -/

/-- Absolute value with the explicit `i16::MIN` escape from
`max_abs_sample` (commands.rs lines 722-726). -/
def i16_abs_or_cap (s : ℤ) : ℤ :=
  if s = -32768 then 32767 else |s|

/-- One step of the `max_abs_sample` loop (commands.rs lines 721-730). -/
def max_abs_step (m s : ℤ) : ℤ :=
  if m < i16_abs_or_cap s then i16_abs_or_cap s else m

/-- `max_abs_sample` (commands.rs lines 719-732). -/
def max_abs_sample (samples : List ℤ) : ℤ :=
  samples.foldl max_abs_step 0

/-- `mean_square_normalized` (commands.rs lines 704-717): mean of
`(s / 32767)^2` over the chunk, `0` for an empty chunk. -/
def mean_square_normalized (samples : List ℤ) : ℚ :=
  if samples = [] then 0
  else (samples.map (fun s : ℤ => ((s : ℚ) / 32767) ^ 2)).sum / samples.length

/-- `detect_voice_activity` (commands.rs lines 690-702); the peak threshold
is 80 and the RMS threshold 0.0008. -/
def detect_voice_activity (samples : List ℤ) : Bool :=
  if samples = [] then false
  else if 80 ≤ max_abs_sample samples then true
  else decide ((8/10000 : ℚ) * (8/10000) ≤ mean_square_normalized samples)

/-- `is_silent_chunk` (commands.rs lines 676-688); the peak threshold is
120 and the RMS threshold 0.0015. -/
def is_silent_chunk (samples : List ℤ) : Bool :=
  if samples = [] then true
  else if 120 < max_abs_sample samples then false
  else decide (mean_square_normalized samples ≤ (15/10000 : ℚ) * (15/10000))

theorem i16_abs_or_cap_bounds (s : ℤ) (h1 : -32768 ≤ s) (h2 : s ≤ 32767) :
    0 ≤ i16_abs_or_cap s ∧ i16_abs_or_cap s ≤ 32767 := by
  unfold i16_abs_or_cap
  split
  · omega
  · rw [abs_le]
    constructor
    · exact abs_nonneg s
    · omega

theorem foldl_max_abs_bounds (l : List ℤ) (m : ℤ) (hm0 : 0 ≤ m) (hm1 : m ≤ 32767)
    (hl : ∀ s ∈ l, -32768 ≤ s ∧ s ≤ 32767) :
    0 ≤ l.foldl max_abs_step m ∧ l.foldl max_abs_step m ≤ 32767 ∧
    m ≤ l.foldl max_abs_step m := by
  induction l generalizing m with
  | nil => exact ⟨hm0, hm1, le_refl m⟩
  | cons s rest ih =>
    have hs := hl s (List.mem_cons_self s rest)
    have hcap := i16_abs_or_cap_bounds s hs.1 hs.2
    have hrest : ∀ x ∈ rest, -32768 ≤ x ∧ x ≤ 32767 :=
      fun x hx => hl x (List.mem_cons_of_mem s hx)
    simp only [List.foldl_cons]
    have hstep0 : 0 ≤ max_abs_step m s := by
      unfold max_abs_step
      split <;> omega
    have hstep1 : max_abs_step m s ≤ 32767 := by
      unfold max_abs_step
      split <;> omega
    have hstepm : m ≤ max_abs_step m s := by
      unfold max_abs_step
      split <;> omega
    obtain ⟨r0, r1, r2⟩ := ih (max_abs_step m s) hstep0 hstep1 hrest
    exact ⟨r0, r1, le_trans hstepm r2⟩

theorem foldl_max_abs_reaches (l : List ℤ) (m : ℤ) (hm0 : 0 ≤ m) (hm1 : m ≤ 32767)
    (hl : ∀ s ∈ l, -32768 ≤ s ∧ s ≤ 32767) (hmem : (-32768 : ℤ) ∈ l) :
    l.foldl max_abs_step m = 32767 := by
  induction l generalizing m with
  | nil => cases hmem
  | cons s rest ih =>
    have hs := hl s (List.mem_cons_self s rest)
    have hrest : ∀ x ∈ rest, -32768 ≤ x ∧ x ≤ 32767 :=
      fun x hx => hl x (List.mem_cons_of_mem s hx)
    simp only [List.foldl_cons]
    rcases List.mem_cons.mp hmem with heq | hmem'
    · subst heq
      have hcap : i16_abs_or_cap (-32768) = 32767 := by
        unfold i16_abs_or_cap
        simp
      have hstep : max_abs_step m (-32768) = 32767 := by
        unfold max_abs_step
        rw [hcap]
        split <;> omega
      rw [hstep]
      have := foldl_max_abs_bounds rest 32767 (by omega) (by omega) hrest
      omega
    · have hstep0 : 0 ≤ max_abs_step m s := by
        have := i16_abs_or_cap_bounds s hs.1 hs.2
        unfold max_abs_step
        split <;> omega
      have hstep1 : max_abs_step m s ≤ 32767 := by
        have := i16_abs_or_cap_bounds s hs.1 hs.2
        unfold max_abs_step
        split <;> omega
      exact ih (max_abs_step m s) hstep0 hstep1 hrest hmem'

/-- C10: `max_abs_sample` is total on every chunk of i16 samples and always
returns a value in `[0, 32767]`; a chunk containing `i16::MIN` yields
exactly 32767 (the explicit cap, no negation overflow), and the derived
predicates are defined there: such a chunk registers voice activity and is
never classified silent. -/
theorem claim_C10 (samples : List ℤ)
    (h : ∀ s ∈ samples, -32768 ≤ s ∧ s ≤ 32767) :
    0 ≤ max_abs_sample samples ∧ max_abs_sample samples ≤ 32767
    ∧ ((-32768 : ℤ) ∈ samples → max_abs_sample samples = 32767
        ∧ detect_voice_activity samples = true
        ∧ is_silent_chunk samples = false) := by
  have hb := foldl_max_abs_bounds samples 0 (le_refl 0) (by omega) h
  have h0 : 0 ≤ max_abs_sample samples := hb.1
  have h1 : max_abs_sample samples ≤ 32767 := hb.2.1
  refine ⟨h0, h1, fun hmem => ?_⟩
  have hmax : max_abs_sample samples = 32767 :=
    foldl_max_abs_reaches samples 0 (le_refl 0) (by omega) h hmem
  have hne : samples ≠ [] := by
    intro hnil
    rw [hnil] at hmem
    cases hmem
  refine ⟨hmax, ?_, ?_⟩
  · unfold detect_voice_activity
    rw [if_neg hne, if_pos (by rw [hmax]; norm_num)]
  · unfold is_silent_chunk
    rw [if_neg hne, if_pos (by rw [hmax]; norm_num)]

/-- Witness for `claim_C10` on the chunk `[-32768, 5]`. -/
theorem claim_C10_wit :
    0 ≤ max_abs_sample [-32768, 5] ∧ max_abs_sample [-32768, 5] ≤ 32767
    ∧ ((-32768 : ℤ) ∈ [-32768, 5] → max_abs_sample [-32768, 5] = 32767
        ∧ detect_voice_activity [-32768, 5] = true
        ∧ is_silent_chunk [-32768, 5] = false) :=
  claim_C10 [-32768, 5] (by decide)

/-! ### Transcript validation (src/input/mod.rs lines 36-51, 108-113) -/

def MAX_TRANSCRIPT_LENGTH : Nat := 10000

inductive ValidationError where
  | TooLong | MaliciousContent
deriving DecidableEq

/-- The eight shell-like tokens of `contains_malicious_patterns`
(input/mod.rs line 109): dollar-paren, backquote (`\x60`), semicolon,
double ampersand, double pipe, pipe, greater-than, less-than. -/
def dangerous_patterns : List (List Char) :=
  [['$', '('], [Char.ofNat 96], [';'], ['&', '&'],
   ['|', '|'], ['|'], ['>'], ['<']]

/-- `contains_malicious_patterns` (input/mod.rs lines 108-113). -/
def contains_malicious_patterns (text : List Char) : Bool :=
  dangerous_patterns.any (fun pat => strContains text pat)

/-- The control-character strip inside `validate_transcript`
(input/mod.rs lines 41-44): keep a char iff it is not a control character
or is whitespace. -/
def cleaned_transcript (text : List Char) : List Char :=
  text.filter (fun c => !(rustIsControl c) || rustIsWhitespace c)

/-- `validate_transcript` (input/mod.rs lines 36-51). -/
def validate_transcript (text : List Char) : Except ValidationError (List Char) :=
  if MAX_TRANSCRIPT_LENGTH < text.length then Except.error ValidationError.TooLong
  else if contains_malicious_patterns (cleaned_transcript text) then
    Except.error ValidationError.MaliciousContent
  else Except.ok (cleaned_transcript text)

theorem strContains_iff (text pat : List Char) :
    strContains text pat = true ↔ pat <:+: text := by
  induction text with
  | nil =>
    simp [strContains, List.isEmpty_iff]
  | cons a rest ih =>
    simp [strContains, ih, List.infix_cons_iff]

/-- C9: `validate_transcript` rejects every text of more than 10,000 chars
as `TooLong`; otherwise it strips non-whitespace control characters and
rejects exactly the texts whose cleaned form contains one of the eight
shell-like tokens as `MaliciousContent`; in particular
`"hello && rm -rf /"` is rejected as `MaliciousContent`. -/
theorem claim_C9 :
    (∀ text : List Char, 10000 < text.length →
      validate_transcript text = Except.error ValidationError.TooLong)
    ∧ (∀ text : List Char, text.length ≤ 10000 →
        (validate_transcript text = Except.error ValidationError.MaliciousContent ↔
          ∃ pat ∈ dangerous_patterns, pat <:+: cleaned_transcript text))
    ∧ validate_transcript ("hello && rm -rf /".data) =
        Except.error ValidationError.MaliciousContent := by
  have hiff : ∀ text : List Char,
      (contains_malicious_patterns (cleaned_transcript text) = true ↔
        ∃ pat ∈ dangerous_patterns, pat <:+: cleaned_transcript text) := by
    intro text
    unfold contains_malicious_patterns
    rw [List.any_eq_true]
    constructor
    · rintro ⟨pat, hmem, hsc⟩
      exact ⟨pat, hmem, (strContains_iff _ _).mp hsc⟩
    · rintro ⟨pat, hmem, hinf⟩
      exact ⟨pat, hmem, (strContains_iff _ _).mpr hinf⟩
  refine ⟨?_, ?_, ?_⟩
  · intro text h
    unfold validate_transcript MAX_TRANSCRIPT_LENGTH
    rw [if_pos h]
  · intro text h
    unfold validate_transcript MAX_TRANSCRIPT_LENGTH
    rw [if_neg (by omega)]
    by_cases hc : contains_malicious_patterns (cleaned_transcript text) = true
    · rw [if_pos hc]
      exact ⟨fun _ => (hiff text).mp hc, fun _ => rfl⟩
    · rw [if_neg hc]
      constructor
      · intro habs
        exact Except.noConfusion habs
      · intro hex
        exact absurd ((hiff text).mpr hex) hc
  · rfl

/-- Witness for `claim_C9`: a 10,001-char text is rejected as TooLong, and
the malicious-content characterization instantiated at a clean text. -/
theorem claim_C9_wit :
    validate_transcript (List.replicate 10001 'a') =
      Except.error ValidationError.TooLong
    ∧ (validate_transcript ['a', 'b'] =
        Except.error ValidationError.MaliciousContent ↔
        ∃ pat ∈ dangerous_patterns, pat <:+: cleaned_transcript ['a', 'b']) :=
  ⟨claim_C9.1 (List.replicate 10001 'a') (by norm_num),
   claim_C9.2.1 ['a', 'b'] (by norm_num)⟩


/-! ### Live partial tracker (src/state.rs lines 35-65) and commit
resolution (src/lib.rs lines 335-386, src/input/mod.rs lines 80-156) -/

inductive TranscriptInjectionMode where
  | Undetermined | RealtimeCursor | ClipboardOnly
deriving DecidableEq

structure LivePartialTracker where
  injected_text : List Char
  disabled_until_commit : Bool
  mode : TranscriptInjectionMode
  pending_clipboard_text : List Char
  last_rewrite_at_ms : Nat
deriving DecidableEq

/-- `LivePartialTracker::reset_after_commit` (state.rs lines 60-64):
clears the text, the disable flag and the rewrite clock but preserves
`mode` and `pending_clipboard_text`. -/
def reset_after_commit (t : LivePartialTracker) : LivePartialTracker :=
  { t with injected_text := [], disabled_until_commit := false, last_rewrite_at_ms := 0 }

/-- `is_terminal_punctuation` (input/mod.rs lines 126-128). -/
def is_terminal_punctuation (c : Char) : Bool :=
  c == '.' || c == ',' || c == '!' || c == '?' ||
  c == '，' || c == '。' || c == '！' || c == '？'

/-- `is_closing_punctuation_wrapper` (input/mod.rs lines 130-132): double
quote (`\x22`), apostrophe (`\x27`), right double/single curly quote,
right paren (`\x29`), right bracket (`\x5D`), right brace (`\x7D`). -/
def is_closing_punctuation_wrapper (c : Char) : Bool :=
  c == Char.ofNat 0x22 || c == Char.ofNat 0x27 || c == '”' || c == '’' ||
  c == Char.ofNat 0x29 || c == Char.ofNat 0x5D || c == Char.ofNat 0x7D

/-- The reversed-iteration loop of `has_terminal_punctuation`
(input/mod.rs lines 115-124): skip closing wrappers from the end, then the
first other char decides. -/
def has_terminal_punctuation_rev : List Char → Bool
  | [] => false
  | c :: rest =>
    if is_closing_punctuation_wrapper c then has_terminal_punctuation_rev rest
    else is_terminal_punctuation c

def has_terminal_punctuation (l : List Char) : Bool :=
  has_terminal_punctuation_rev l.reverse

/-- `extract_terminal_punctuation_suffix` (input/mod.rs lines 134-156):
trim the end, walk back over closing wrappers (the walk stops at index 0),
and return the suffix from the first terminal-punctuation char found, else
empty.  Walking back over wrappers on the reversed list is
`dropWhile`/`takeWhile`; the stop-at-index-0 case is the all-wrappers list,
whose first char is a wrapper and never terminal punctuation. -/
def extract_terminal_punctuation_suffix (text : List Char) : List Char :=
  let trimmed := rust_trim_end text
  if trimmed = [] then []
  else
    match trimmed.reverse.dropWhile is_closing_punctuation_wrapper with
    | [] => []
    | c :: _ =>
      if is_terminal_punctuation c then
        c :: (trimmed.reverse.takeWhile is_closing_punctuation_wrapper).reverse
      else []

/-- `resolve_committed_punctuation_delta` (input/mod.rs lines 80-106). -/
def resolve_committed_punctuation_delta (committed_text injected_text : List Char) :
    List Char :=
  let committed := rust_trim committed_text
  if committed = [] then []
  else
    let injected := rust_trim injected_text
    if injected = [] ∨ committed = injected then []
    else if injected.isPrefixOf committed &&
        (rust_trim (committed.drop injected.length)).all
          (fun c => is_terminal_punctuation c || is_closing_punctuation_wrapper c) then
      committed.drop injected.length
    else if has_terminal_punctuation injected then []
    else extract_terminal_punctuation_suffix committed

/-- `is_join_boundary_punctuation` (lib.rs lines 570-575). -/
def is_join_boundary_punctuation (c : Char) : Bool :=
  c == '.' || c == ',' || c == '!' || c == '?' || c == ';' || c == ':' ||
  c == '，' || c == '。' || c == '！' || c == '？' || c == '；' || c == '：' || c == '、'

/-- `is_cjk` (lib.rs lines 577-590). -/
def is_cjk (c : Char) : Bool :=
  let n := c.toNat
  (0x3400 ≤ n && n ≤ 0x4DBF) || (0x4E00 ≤ n && n ≤ 0x9FFF) ||
  (0xF900 ≤ n && n ≤ 0xFAFF) || (0x20000 ≤ n && n ≤ 0x2A6DF) ||
  (0x2A700 ≤ n && n ≤ 0x2B73F) || (0x2B740 ≤ n && n ≤ 0x2B81F) ||
  (0x2B820 ≤ n && n ≤ 0x2CEAF) || (0x2CEB0 ≤ n && n ≤ 0x2EBEF) ||
  (0x3000 ≤ n && n ≤ 0x303F)

/-- `append_to_pending_clipboard` (lib.rs lines 546-568): trim the new
segment, insert a single space only when both non-whitespace neighbours
are neither join-boundary punctuation nor CJK, append, and return the new
buffer value. -/
def append_to_pending_clipboard (pending new_text : List Char) : List Char :=
  let segment := rust_trim new_text
  if segment = [] then pending
  else
    let sep : List Char :=
      if pending = [] then []
      else
        match pending.reverse.find? (fun c => !(rustIsWhitespace c)),
              segment.find? (fun c => !(rustIsWhitespace c)) with
        | some previous, some upcoming =>
          if !(is_join_boundary_punctuation previous) &&
              !(is_join_boundary_punctuation upcoming) &&
              !(is_cjk previous) && !(is_cjk upcoming) then [' ']
          else []
        | _, _ => []
    pending ++ sep ++ segment

/-- The outcome of resolving one committed transcript against the tracker
(the mutation block of `handle_scribe_event`, lib.rs lines 335-362):
either a punctuation-only delta destined for the keystroke queue, or an
append to the clipboard-only buffer. -/
structure CommitOutcome where
  text_for_injection : List Char
  clipboard_write : Option (List Char)
  tracker : LivePartialTracker
deriving DecidableEq

/-- The commit resolver (lib.rs lines 335-352): the branch is decided by
`!tracker.injected_text.trim().is_empty()` alone — the mode is NOT
consulted. -/
def resolve_commit (tracker : LivePartialTracker) (committed_text : List Char) :
    CommitOutcome :=
  if rust_trim tracker.injected_text ≠ [] then
    { text_for_injection :=
        resolve_committed_punctuation_delta committed_text tracker.injected_text,
      clipboard_write := none,
      tracker := reset_after_commit tracker }
  else
    { text_for_injection := [],
      clipboard_write :=
        some (append_to_pending_clipboard tracker.pending_clipboard_text committed_text),
      tracker := reset_after_commit
        { tracker with pending_clipboard_text :=
            append_to_pending_clipboard tracker.pending_clipboard_text committed_text } }

/-- Whether the resolved commit is pushed onto the keystroke-injection
queue: `!text_for_injection.trim().is_empty()` (lib.rs line 366). -/
def commit_enqueues (o : CommitOutcome) : Bool :=
  !(rust_trim o.text_for_injection).isEmpty

/-- The `PartialTranscript` arm when no text cursor is available
(lib.rs lines 288-292): set `mode = ClipboardOnly`, leaving every other
tracker field (including `injected_text`) unchanged. -/
def partial_no_cursor_step (t : LivePartialTracker) : LivePartialTracker :=
  { t with mode := TranscriptInjectionMode.ClipboardOnly }

/-- C1 (amended): the commit resolver takes the clipboard-only path exactly
when `injected_text` is empty after trim — the mode is not consulted.  In
that case the committed text is appended to `pending_clipboard_text` under
the join-boundary spacing rules, the full buffer is written to the
clipboard, and nothing is enqueued for keystroke injection.  (When
`mode = ClipboardOnly` but `injected_text` is non-empty, a punctuation
delta can still be enqueued for keystrokes — see the counterexample.) -/
theorem claim_C1 (tracker : LivePartialTracker) (c : List Char)
    (h : rust_trim tracker.injected_text = []) :
    (resolve_commit tracker c).text_for_injection = []
    ∧ commit_enqueues (resolve_commit tracker c) = false
    ∧ (resolve_commit tracker c).clipboard_write =
        some (append_to_pending_clipboard tracker.pending_clipboard_text c)
    ∧ (resolve_commit tracker c).tracker.pending_clipboard_text =
        append_to_pending_clipboard tracker.pending_clipboard_text c
    ∧ append_to_pending_clipboard ("你好".data) ("世界".data) = "你好世界".data
    ∧ append_to_pending_clipboard ("hello world".data) ("new chunk".data) =
        "hello world new chunk".data := by
  have hres : resolve_commit tracker c =
      { text_for_injection := [],
        clipboard_write :=
          some (append_to_pending_clipboard tracker.pending_clipboard_text c),
        tracker := reset_after_commit
          { tracker with pending_clipboard_text :=
              append_to_pending_clipboard tracker.pending_clipboard_text c } } := by
    unfold resolve_commit
    rw [if_neg (fun hne => hne h)]
  rw [hres]
  exact ⟨rfl, rfl, rfl, rfl, by decide, by decide⟩

/-- C1 counterexample: a tracker in `ClipboardOnly` mode whose
`injected_text` is `"hello"` (reachable: partials were injected while a
cursor was available, then a partial arrived with no cursor available,
which flips the mode but keeps `injected_text`).  Resolving the committed
text `"hello."` enqueues the keystroke delta `"."` and writes nothing to
the clipboard buffer, contradicting the claim that in `ClipboardOnly` mode
committed text goes to the clipboard only and no keystrokes are queued. -/
theorem claim_C1_cex :
    (partial_no_cursor_step
        ⟨"hello".data, false, TranscriptInjectionMode.RealtimeCursor, [], 0⟩) =
      ⟨"hello".data, false, TranscriptInjectionMode.ClipboardOnly, [], 0⟩
    ∧ (resolve_commit
        ⟨"hello".data, false, TranscriptInjectionMode.ClipboardOnly, [], 0⟩
        ("hello.".data)).text_for_injection = ".".data
    ∧ commit_enqueues (resolve_commit
        ⟨"hello".data, false, TranscriptInjectionMode.ClipboardOnly, [], 0⟩
        ("hello.".data)) = true
    ∧ (resolve_commit
        ⟨"hello".data, false, TranscriptInjectionMode.ClipboardOnly, [], 0⟩
        ("hello.".data)).clipboard_write = none := by
  refine ⟨by decide, by decide, by decide, by decide⟩

/-- Witness for `claim_C1` at a fresh tracker and the committed text
`"hello."`. -/
theorem claim_C1_wit :
    (resolve_commit ⟨[], false, TranscriptInjectionMode.Undetermined, [], 0⟩
        ("hello.".data)).text_for_injection = []
    ∧ commit_enqueues (resolve_commit
        ⟨[], false, TranscriptInjectionMode.Undetermined, [], 0⟩ ("hello.".data)) = false
    ∧ (resolve_commit ⟨[], false, TranscriptInjectionMode.Undetermined, [], 0⟩
        ("hello.".data)).clipboard_write =
        some (append_to_pending_clipboard [] ("hello.".data))
    ∧ (resolve_commit ⟨[], false, TranscriptInjectionMode.Undetermined, [], 0⟩
        ("hello.".data)).tracker.pending_clipboard_text =
        append_to_pending_clipboard [] ("hello.".data)
    ∧ append_to_pending_clipboard ("你好".data) ("世界".data) = "你好世界".data
    ∧ append_to_pending_clipboard ("hello world".data) ("new chunk".data) =
        "hello world new chunk".data :=
  claim_C1 ⟨[], false, TranscriptInjectionMode.Undetermined, [], 0⟩ ("hello.".data) rfl

/-! ### Partial reconciler (src/lib.rs lines 656-825) -/

/-- `common_prefix_char_count` (lib.rs lines 802-807). -/
def common_prefix_char_count (left right : List Char) : Nat :=
  ((left.zip right).takeWhile (fun p => p.1 == p.2)).length

/-- `suffix_from_char_index` (lib.rs lines 809-825): char-index slicing,
i.e. dropping the first `char_index` chars (empty beyond the end). -/
def suffix_from_char_index (text : List Char) (char_index : Nat) : List Char :=
  text.drop char_index

inductive PartialInjectionPlan where
  | append (delta next_injected_text : List Char)
  | rewrite (backspace_count : Nat) (insert_text next_injected_text : List Char)
deriving DecidableEq

/-- The `(rewrite_enabled, max_backspace, window_ms)` triple of
`current_partial_rewrite_config` (lib.rs lines 639-654). -/
structure RewriteConfig where
  rewrite_enabled : Bool
  rewrite_max_backspace : Nat
  rewrite_window_ms : Nat
deriving DecidableEq

/-- The plan-selection block of `inject_partial_transcript_delta`
(lib.rs lines 677-732), as a function of the tracker, the config, the
current time and the normalized partial; returns the plan (if any) and the
tracker as mutated inside the lock (the rewrite branch stamps
`last_rewrite_at_ms`, the disable branches set `disabled_until_commit`). -/
def partial_plan (tracker : LivePartialTracker) (cfg : RewriteConfig) (now_ms : Nat)
    (normalized : List Char) : Option PartialInjectionPlan × LivePartialTracker :=
  if tracker.mode = TranscriptInjectionMode.ClipboardOnly then (none, tracker)
  else if tracker.disabled_until_commit then (none, tracker)
  else if tracker.injected_text = [] then
    (some (PartialInjectionPlan.append normalized normalized), tracker)
  else if tracker.injected_text.isPrefixOf normalized then
    if normalized.drop tracker.injected_text.length = [] then (none, tracker)
    else
      (some (PartialInjectionPlan.append
        (normalized.drop tracker.injected_text.length) normalized), tracker)
  else if !cfg.rewrite_enabled then
    (none, { tracker with disabled_until_commit := true })
  else
    let k := common_prefix_char_count tracker.injected_text normalized
    let b := tracker.injected_text.length - k
    if b = 0 then (none, tracker)
    else if cfg.rewrite_max_backspace < b then
      (none, { tracker with disabled_until_commit := true })
    else if 0 < cfg.rewrite_window_ms ∧ 0 < tracker.last_rewrite_at_ms ∧
        now_ms - tracker.last_rewrite_at_ms < cfg.rewrite_window_ms then
      (none, tracker)
    else
      (some (PartialInjectionPlan.rewrite b (suffix_from_char_index normalized k) normalized),
       { tracker with last_rewrite_at_ms := now_ms })

/-- The success branch of `inject_partial_transcript_delta`
(lib.rs lines 768-781): store the plan's `next_injected_text` and switch
the mode to `RealtimeCursor` (unless the tracker was disabled meanwhile). -/
def apply_partial_success (tracker : LivePartialTracker) (plan : PartialInjectionPlan) :
    LivePartialTracker :=
  if tracker.disabled_until_commit then tracker
  else
    match plan with
    | PartialInjectionPlan.append _ next =>
      { tracker with injected_text := next, mode := TranscriptInjectionMode.RealtimeCursor }
    | PartialInjectionPlan.rewrite _ _ next =>
      { tracker with injected_text := next, mode := TranscriptInjectionMode.RealtimeCursor }

/-- C5: from tracker text `"modern test"`, the partial `"model test"` with
rewrite enabled, `max_backspace = 12` and an open rewrite window yields the
plan of exactly 7 backspaces (`chars(t) - common_prefix_char_count = 11 - 4`)
followed by the char-index suffix `"l test"`, stamping
`last_rewrite_at_ms = now`; applying the success branch sets
`injected_text = "model test"`. -/
theorem claim_C5 (mode : TranscriptInjectionMode) (pending : List Char) (now r w : Nat)
    (hmode : mode ≠ TranscriptInjectionMode.ClipboardOnly)
    (hwin : ¬(0 < w ∧ 0 < r ∧ now - r < w)) :
    partial_plan ⟨"modern test".data, false, mode, pending, r⟩ ⟨true, 12, w⟩ now
        ("model test".data) =
      (some (PartialInjectionPlan.rewrite 7 ("l test".data) ("model test".data)),
       ⟨"modern test".data, false, mode, pending, now⟩)
    ∧ common_prefix_char_count ("modern test".data) ("model test".data) = 4
    ∧ (apply_partial_success ⟨"modern test".data, false, mode, pending, now⟩
        (PartialInjectionPlan.rewrite 7 ("l test".data) ("model test".data))).injected_text =
        "model test".data
    ∧ (apply_partial_success ⟨"modern test".data, false, mode, pending, now⟩
        (PartialInjectionPlan.rewrite 7 ("l test".data)
          ("model test".data))).last_rewrite_at_ms = now := by
  refine ⟨?_, by decide, rfl, rfl⟩
  simp only [partial_plan]
  rw [if_neg hmode, if_neg (by decide), if_neg (by decide), if_neg (by decide),
      if_neg (by decide), if_neg (by decide), if_neg (by decide), if_neg hwin]
  rfl

/-- Witness for `claim_C5` with `mode = RealtimeCursor`, `now = 5000`,
`last_rewrite_at_ms = 0` and the default window 140. -/
theorem claim_C5_wit :
    partial_plan ⟨"modern test".data, false, TranscriptInjectionMode.RealtimeCursor, [], 0⟩
        ⟨true, 12, 140⟩ 5000 ("model test".data) =
      (some (PartialInjectionPlan.rewrite 7 ("l test".data) ("model test".data)),
       ⟨"modern test".data, false, TranscriptInjectionMode.RealtimeCursor, [], 5000⟩)
    ∧ common_prefix_char_count ("modern test".data) ("model test".data) = 4
    ∧ (apply_partial_success
        ⟨"modern test".data, false, TranscriptInjectionMode.RealtimeCursor, [], 5000⟩
        (PartialInjectionPlan.rewrite 7 ("l test".data) ("model test".data))).injected_text =
        "model test".data
    ∧ (apply_partial_success
        ⟨"modern test".data, false, TranscriptInjectionMode.RealtimeCursor, [], 5000⟩
        (PartialInjectionPlan.rewrite 7 ("l test".data)
          ("model test".data))).last_rewrite_at_ms = 5000 :=
  claim_C5 TranscriptInjectionMode.RealtimeCursor [] 5000 0 140
    (by decide) (by decide)

/-! ### Committed queue discipline (src/lib.rs lines 364-385,
src/commands.rs lines 201-215) -/

/-- `CommittedTranscript` (state.rs lines 16-22). -/
structure CommittedTranscript where
  text : List Char
  confidence : F32
  created_at_ms : Nat
deriving DecidableEq

/-- The enqueue block of `handle_scribe_event` (lib.rs lines 367-377):
`push_back`, then if `len > 128` drop the oldest (`pop_front`) and count
one drop. -/
def enqueue_committed (q : List CommittedTranscript) (t : CommittedTranscript) :
    List CommittedTranscript × Nat :=
  let pushed := q ++ [t]
  if 128 < pushed.length then (pushed.tail, 1) else (pushed, 0)

inductive QueueOp where
  | enqueue (t : CommittedTranscript)
  | dequeue

/-- One operation on the committed queue: the guarded enqueue above, or a
`pop_front` (`dequeue_committed_transcript` in commands.rs lines 201-208
and the injection dispatcher drain in lib.rs lines 434-441). -/
def queue_step (q : List CommittedTranscript) : QueueOp → List CommittedTranscript
  | QueueOp.enqueue t => (enqueue_committed q t).1
  | QueueOp.dequeue => q.tail

def run_queue_ops (ops : List QueueOp) : List CommittedTranscript :=
  ops.foldl queue_step []

/-- The full post-resolution step (lib.rs lines 364-385): enqueue only when
the resolved text is non-blank, and signal the injection worker
(`injection_notify.notify_one`) exactly when something was enqueued.
Result: (queue, drops counted, worker signalled). -/
def commit_queue_step (q : List CommittedTranscript) (o : CommitOutcome)
    (confidence : F32) (created_at_ms : Nat) :
    List CommittedTranscript × Nat × Bool :=
  if commit_enqueues o then
    ((enqueue_committed q ⟨o.text_for_injection, confidence, created_at_ms⟩).1,
     (enqueue_committed q ⟨o.text_for_injection, confidence, created_at_ms⟩).2, true)
  else (q, 0, false)

theorem enqueue_committed_len (q : List CommittedTranscript) (t : CommittedTranscript)
    (hq : q.length ≤ 128) : (enqueue_committed q t).1.length ≤ 128 := by
  unfold enqueue_committed
  dsimp only
  split
  · simp only [List.length_tail, List.length_append, List.length_cons, List.length_nil]
    omega
  · rename_i hlen
    simp only [List.length_append, List.length_cons, List.length_nil] at *
    omega

/-- C6: the committed queue never exceeds 128 entries under any sequence of
enqueue/dequeue operations from the empty queue; an enqueue that would push
the length past 128 removes the oldest entry and counts exactly one drop,
while an in-bounds enqueue keeps every entry and counts none; and the
injection worker is signalled exactly when a transcript was enqueued. -/
theorem claim_C6 :
    (∀ ops : List QueueOp, (run_queue_ops ops).length ≤ 128)
    ∧ (∀ (q : List CommittedTranscript) (t : CommittedTranscript),
        q.length ≤ 128 → (enqueue_committed q t).1.length ≤ 128)
    ∧ (∀ (q : List CommittedTranscript) (t : CommittedTranscript),
        128 ≤ q.length → enqueue_committed q t = (q.tail ++ [t], 1))
    ∧ (∀ (q : List CommittedTranscript) (t : CommittedTranscript),
        q.length < 128 → enqueue_committed q t = (q ++ [t], 0))
    ∧ (∀ (q : List CommittedTranscript) (o : CommitOutcome) (c : F32) (m : Nat),
        (commit_queue_step q o c m).2.2 = commit_enqueues o) := by
  have haux : ∀ (ops : List QueueOp) (q : List CommittedTranscript),
      q.length ≤ 128 → (ops.foldl queue_step q).length ≤ 128 := by
    intro ops
    induction ops with
    | nil => intro q hq; exact hq
    | cons op rest ih =>
      intro q hq
      simp only [List.foldl_cons]
      apply ih
      cases op with
      | enqueue t => exact enqueue_committed_len q t hq
      | dequeue =>
        simp only [queue_step, List.length_tail]
        omega
  refine ⟨fun ops => haux ops [] (by simp), enqueue_committed_len, ?_, ?_, ?_⟩
  · intro q t h
    unfold enqueue_committed
    dsimp only
    rw [if_pos (by simp only [List.length_append, List.length_cons, List.length_nil]; omega)]
    cases q with
    | nil => simp at h
    | cons x rest => simp
  · intro q t h
    unfold enqueue_committed
    dsimp only
    rw [if_neg (by simp only [List.length_append, List.length_cons, List.length_nil]; omega)]
  · intro q o c m
    unfold commit_queue_step
    split
    · rename_i hc
      exact hc.symm
    · rename_i hc
      exact (Bool.not_eq_true _).mp hc |>.symm

/-- Witness for `claim_C6`: a short op sequence, and an overflowing enqueue
on a full queue of 128 entries. -/
theorem claim_C6_wit :
    (run_queue_ops [QueueOp.enqueue ⟨"a".data, F32.finite 1, 0⟩, QueueOp.dequeue]).length ≤ 128
    ∧ enqueue_committed (List.replicate 128 ⟨[], F32.finite 1, 0⟩) ⟨"b".data, F32.finite 1, 0⟩ =
        ((List.replicate 128 (⟨[], F32.finite 1, 0⟩ : CommittedTranscript)).tail ++
          [⟨"b".data, F32.finite 1, 0⟩], 1)
    ∧ enqueue_committed [] ⟨"c".data, F32.finite 1, 0⟩ = ([⟨"c".data, F32.finite 1, 0⟩], 0) :=
  ⟨claim_C6.1 _,
   claim_C6.2.2.1 _ _ (by simp),
   by
    have := claim_C6.2.2.2.1 [] ⟨"c".data, F32.finite 1, 0⟩ (by norm_num)
    simpa using this⟩

end Raflow
